import Mathlib

/-!
Verification of the log-file harvester (`harvester.go`).

The harvester state machine is embedded shallowly:

* File contents are byte lists (`List Nat`).  The watched file is external
  and may change between chunk reads (the Go code re-opens the file for every
  chunk), so every call to `Harvester.read` consumes one `Obs`: the file
  content observed at that moment, plus an optionally injected I/O failure of
  the underlying `ReadBytes` call.
* Time is a discrete second counter: the only time that passes inside the
  loop is the 1-second back-off sleep in `readline`, so the clock advances by
  one per sleep and `time.Since` is subtraction of recorded clock values.
* The `defer h.FinishChan <- h.Offset` of `Harvest` is modelled by the
  `pushes` field of the result: each return path of the loop records the
  one value the deferred function would send.
* `readline`'s Go result `(*string, int, error)` is modelled as
  `(Option (List Nat), Nat, Option RErr)`.
-/

namespace LogstashForwarder

/-- Byte value of the line feed character. -/
def LF : Nat := 10

/-- Byte value of the carriage return character. -/
def CR : Nat := 13

/-- Modelled from the spec: per-file configuration handed to the harvester at
construction (the `FileConfig` type itself lives outside `src/`): a dead-time
threshold (in whole seconds) and arbitrary tag fields attached to every
event. -/
structure FileConfig where
  deadtime : Nat
  Fields : List (String × String)
deriving DecidableEq

/-- Modelled from the spec: the file-metadata snapshot (`os.FileInfo`) taken
by each chunk read; only the size is relevant to the harvester. -/
structure FileInfo where
  Size : Nat
deriving DecidableEq

/-- Modelled from the spec: the event record emitted per line (the
`FileEvent` type itself lives outside `src/`): source path, offset of the
line's first byte, 1-based line number, line text (a `*string`, hence
`Option`), the tag fields, and the metadata snapshot of the read that
produced it. -/
structure FileEvent where
  Source : String
  Offset : Nat
  Line : Nat
  Text : Option (List Nat)
  Fields : List (String × String)
  fileinfo : Option FileInfo
deriving DecidableEq

/-- The per-file harvester state (`Harvester` struct of `harvester.go`):
`IsTracked`, `Path`, the configuration, the running `Offset`, the most
recently observed file `size`, and the metadata snapshot `info` (a pointer in
Go, hence `Option`; `nil` until the first read). -/
structure Harvester where
  IsTracked : Bool
  Path : String
  fileConfig : FileConfig
  Offset : Nat
  size : Nat
  info : Option FileInfo
deriving DecidableEq

/-- One observation of the external file by one `Harvester.read` call: the
byte content the re-opened file has at that moment, and an optional injected
failure of the `ReadBytes` call (a non-EOF I/O error, carrying its
message). -/
structure Obs where
  content : List Nat
  readErr : Option String
deriving DecidableEq

/-- The errors `readline`/`read` can surface: end of file (`io.EOF`), the
`FILE_TRUNCATED` sentinel, or any other I/O error (with its message). -/
inductive RErr
  | eof
  | truncated
  | other (msg : String)
deriving DecidableEq

/-- `bufio.Reader.ReadBytes('\n')`: the taken bytes up to and including the
first line feed, plus a flag telling whether the delimiter was found (when it
was not, the Go call reports `io.EOF`). -/
def readBytesLF : List Nat → List Nat × Bool
  | [] => ([], false)
  | b :: rest =>
    if b = LF then ([b], true)
    else
      let r := readBytesLF rest
      (b :: r.1, r.2)

/-- `Harvester.open`: re-opens the watched file and decides the read
position.  Resume mode (`IsTracked`) seeks to `Offset` and changes nothing;
in tail mode the first open seeks to end of file, records that offset, and
flips `IsTracked`; otherwise the first open seeks to 0 and flips
`IsTracked`.  (The indefinite open-retry loop, the stdin special case and the
regular-file check do not affect the resulting state and are not modelled.) -/
def Harvester.openH (h : Harvester) (tailOnRotate : Bool) (content : List Nat) : Harvester :=
  if h.IsTracked then h
  else if tailOnRotate then { h with Offset := content.length, IsTracked := true }
  else { h with Offset := 0, IsTracked := true }

/-- `Harvester.read`: one chunk read.  Opens the file (deciding the position,
see `Harvester.openH`), stats it, and — via a `defer` whose arguments were
captured before the size test, hence on *every* return path — stores the
observed size and metadata into the harvester.  If the observed size shrank
below the previously stored `size`, it returns `FILE_TRUNCATED` without
reading.  Otherwise it seeks `offset` (the caller's buffered-byte count)
further and calls `ReadBytes('\n')`; finding no delimiter is `io.EOF`. -/
def Harvester.read (h : Harvester) (tailOnRotate : Bool) (obs : Obs) (offset : Nat) :
    Harvester × List Nat × Option RErr :=
  let h1 := h.openH tailOnRotate obs.content
  let infoSize := obs.content.length
  let h2 := { h1 with size := infoSize, info := some ⟨infoSize⟩ }
  if infoSize < h1.size then
    (h2, [], some RErr.truncated)
  else
    match obs.readErr with
    | some msg => (h2, [], some (RErr.other msg))
    | none =>
      let r := readBytesLF (obs.content.drop (h1.Offset + offset))
      (h2, r.1, if r.2 then none else some RErr.eof)

/-- Result of one iteration of `readline`'s `for` loop: either loop again
with updated state, or return (harvester, buffer, clock, text, byte count,
error). -/
inductive StepRes
  | more (h : Harvester) (buffer : List Nat) (is_p : Bool) (nl : Nat) (clock : Nat)
  | done (h : Harvester) (buffer : List Nat) (clock : Nat)
      (text : Option (List Nat)) (bytesread : Nat) (err : Option RErr)
deriving DecidableEq

/-- One iteration of the `for` loop of `Harvester.readline`: read a chunk;
if the segment ends in a line feed the line is complete (and a carriage
return just before it, in this same segment, makes the terminator two bytes
long); append the segment to the buffer; on `io.EOF` while the line is still
incomplete, sleep one second and retry unless the time since `start_time`
exceeded `eof_timeout`; any other error returns immediately; a complete line
returns the buffer minus the terminator, with its full byte count. -/
def readlineStep (tailOnRotate : Bool) (eof_timeout : Nat) (h : Harvester)
    (buffer : List Nat) (is_p : Bool) (newline_length : Nat)
    (start_time clock : Nat) (obs : Obs) : StepRes :=
  let rd := h.read tailOnRotate obs buffer.length
  let h1 := rd.1
  let segment := rd.2.1
  let is_p2 : Bool :=
    if 0 < segment.length ∧ segment[segment.length - 1]? = some LF then false else is_p
  let nl2 : Nat :=
    if 0 < segment.length ∧ segment[segment.length - 1]? = some LF
        ∧ 1 < segment.length ∧ segment[segment.length - 2]? = some CR then
      newline_length + 1
    else newline_length
  let buffer2 := buffer ++ segment
  match rd.2.2 with
  | some e =>
    if e = RErr.eof ∧ is_p2 = true then
      if eof_timeout < clock + 1 - start_time then
        StepRes.done h1 buffer2 (clock + 1) none 0 (some e)
      else
        StepRes.more h1 buffer2 is_p2 nl2 (clock + 1)
    else
      StepRes.done h1 buffer2 clock none 0 (some e)
  | none =>
    if is_p2 = true then
      StepRes.more h1 buffer2 is_p2 nl2 clock
    else
      StepRes.done h1 [] clock (some (buffer2.take (buffer2.length - nl2)))
        buffer2.length none

/-- The full result of one `Harvester.readline` call: the harvester and
buffer state it leaves behind, the clock on return, the unconsumed
observations, and the Go return triple (text, byte count, error). -/
structure RlOut where
  h : Harvester
  buffer : List Nat
  clock : Nat
  rest : List Obs
  text : Option (List Nat)
  bytesread : Nat
  err : Option RErr
deriving DecidableEq

/-- The `for` loop of `Harvester.readline`, driven by the list of file
observations (one per chunk read); `none` when the observation list runs
out before the loop returns. -/
def readlineGo (tailOnRotate : Bool) (eof_timeout : Nat) :
    Harvester → List Nat → Bool → Nat → Nat → Nat → List Obs → Option RlOut
  | _, _, _, _, _, _, [] => none
  | h, buffer, is_p, newline_length, start_time, clock, obs :: rest =>
    match readlineStep tailOnRotate eof_timeout h buffer is_p newline_length start_time clock obs with
    | StepRes.done h1 b1 c1 text bytesread err => some ⟨h1, b1, c1, rest, text, bytesread, err⟩
    | StepRes.more h1 b1 ip1 nl1 c1 =>
      readlineGo tailOnRotate eof_timeout h1 b1 ip1 nl1 start_time c1 rest

/-- `Harvester.readline`: enters the chunk loop with the incomplete-line flag
set, `newline_length := 1` and `start_time := time.Now()` (the clock at
entry). -/
def Harvester.readline (h : Harvester) (tailOnRotate : Bool) (buffer : List Nat)
    (eof_timeout clock : Nat) (obsList : List Obs) : Option RlOut :=
  readlineGo tailOnRotate eof_timeout h buffer true 1 clock clock obsList

/-- How one `Harvest` loop ended: dead-time expiry (`return` after the
inactivity check) or an unexpected read error (`return` in the final `else`
branch). -/
inductive ExitKind
  | dead
  | aborted (e : RErr)
deriving DecidableEq

/-- The observable outcome of a `Harvest` run: the events shipped to the
output channel in order, the values sent on `FinishChan` (by the deferred
push, one per return path taken), the final harvester and buffer state, the
clock at exit, the unconsumed observations, and which terminal branch
returned. -/
structure HvOut where
  events : List FileEvent
  pushes : List Nat
  h : Harvester
  buffer : List Nat
  clock : Nat
  rest : List Obs
  exit : ExitKind
deriving DecidableEq

/-- The `for` loop of `Harvester.Harvest`, with explicit fuel (`none` when
fuel or observations run out).  Each iteration calls `readline` with the
hard-coded 10-second `read_timeout`.  `FILE_TRUNCATED` resets `Offset` to 0
and continues (the buffer is left as `readline` returned it); `io.EOF`
returns when the time since `last_read_time` exceeds the configured dead
time and continues otherwise; any other error returns; a line increments the
counter, builds the event from the pre-advance `Offset`, advances `Offset`
by the byte count read, ships the event, and records the activity time.
Every `return` path records the deferred `FinishChan <- h.Offset` push. -/
def harvestGo (tailOnRotate : Bool) :
    Nat → Harvester → List Nat → Nat → Nat → Nat → List Obs → Option HvOut
  | 0, _, _, _, _, _, _ => none
  | fuel + 1, h, buffer, line, last_read_time, clock, obsList =>
    match h.readline tailOnRotate buffer 10 clock obsList with
    | none => none
    | some r =>
      match r.err with
      | some RErr.truncated =>
        harvestGo tailOnRotate fuel { r.h with Offset := 0 } r.buffer line
          last_read_time r.clock r.rest
      | some RErr.eof =>
        if r.h.fileConfig.deadtime < r.clock - last_read_time then
          some ⟨[], [r.h.Offset], r.h, r.buffer, r.clock, r.rest, ExitKind.dead⟩
        else
          harvestGo tailOnRotate fuel r.h r.buffer line last_read_time r.clock r.rest
      | some (RErr.other msg) =>
        some ⟨[], [r.h.Offset], r.h, r.buffer, r.clock, r.rest,
          ExitKind.aborted (RErr.other msg)⟩
      | none =>
        let event : FileEvent :=
          { Source := r.h.Path, Offset := r.h.Offset, Line := line + 1,
            Text := r.text, Fields := r.h.fileConfig.Fields, fileinfo := r.h.info }
        match harvestGo tailOnRotate fuel { r.h with Offset := r.h.Offset + r.bytesread }
            r.buffer (line + 1) r.clock r.clock r.rest with
        | none => none
        | some out =>
          some ⟨event :: out.events, out.pushes, out.h, out.buffer, out.clock,
            out.rest, out.exit⟩

/-- `Harvester.Harvest`: fresh line counter, fresh empty buffer, and
`last_read_time := time.Now()` (the clock at entry). -/
def Harvester.Harvest (h : Harvester) (tailOnRotate : Bool) (fuel clock : Nat)
    (obsList : List Obs) : Option HvOut :=
  harvestGo tailOnRotate fuel h [] 0 clock clock obsList

/-- Spec-side helper: the text a complete line leaves after its terminator is
stripped — the final line feed, preceded by a carriage return when there is
one. -/
def stripTerm (l : List Nat) : List Nat :=
  if l[l.length - 1]? = some CR then l.dropLast else l

/-- Spec-side helper: a file made of the given lines, each terminated by a
line feed. -/
def joinLines : List (List Nat) → List Nat
  | [] => []
  | l :: ls => l ++ LF :: joinLines ls

/-- Spec-side helper: total byte length of the given terminated lines. -/
def termLen (ls : List (List Nat)) : Nat :=
  (ls.map (fun l => l.length + 1)).sum

/-- Spec-side helper: the events a harvester must emit for the given lines,
starting at byte offset `o` with line counter `n`: per line the source path,
the offset of its first byte, the next 1-based line number, its
terminator-stripped text, the tag fields, and the metadata snapshot of the
(static, size-`fsize`) file. -/
def expectedEvents (path : String) (fields : List (String × String)) (fsize : Nat) :
    Nat → Nat → List (List Nat) → List FileEvent
  | _, _, [] => []
  | o, n, l :: ls =>
    ⟨path, o, n + 1, some (stripTerm l), fields, some ⟨fsize⟩⟩ ::
      expectedEvents path fields fsize (o + (l.length + 1)) (n + 1) ls

/-- Spec-side helper: the starting byte offsets of successive lines. -/
def lineOffsets : Nat → List (List Nat) → List Nat
  | _, [] => []
  | o, l :: ls => o :: lineOffsets (o + (l.length + 1)) ls

/-! ### Lemmas about `readBytesLF` -/

lemma readBytesLF_noLF {p : List Nat} (hp : LF ∉ p) : readBytesLF p = (p, false) := by
  induction p with
  | nil => rfl
  | cons b rest ih =>
    have hb : ¬ b = LF := fun h => hp (h ▸ List.mem_cons_self b rest)
    have hrest : LF ∉ rest := fun h => hp (List.mem_cons_of_mem b h)
    simp [readBytesLF, hb, ih hrest]

lemma readBytesLF_line {l : List Nat} (r : List Nat) (hl : LF ∉ l) :
    readBytesLF (l ++ LF :: r) = (l ++ [LF], true) := by
  induction l with
  | nil => simp [readBytesLF]
  | cons b rest ih =>
    have hb : ¬ b = LF := fun h => hl (h ▸ List.mem_cons_self b rest)
    have hrest : LF ∉ rest := fun h => hl (List.mem_cons_of_mem b h)
    simp [readBytesLF, hb, ih hrest]

/-! ### Lemmas about list indexing used by the terminator detection -/

lemma concat_last_getElem (l : List Nat) (a : Nat) :
    (l ++ [a])[(l ++ [a]).length - 1]? = some a := by
  have hlen : (l ++ [a]).length - 1 = l.length := by simp
  rw [hlen]
  exact List.getElem?_concat_length l a

lemma noLF_not_lineNow {p : List Nat} (hp : LF ∉ p) :
    ¬ (0 < p.length ∧ p[p.length - 1]? = some LF) := by
  rintro ⟨-, hlast⟩
  exact hp (List.getElem?_mem hlast)

lemma concat_penult_getElem (l : List Nat) (a : Nat) (hl : l ≠ []) :
    (l ++ [a])[(l ++ [a]).length - 2]? = l[l.length - 1]? := by
  have hpos : 0 < l.length := List.length_pos.mpr hl
  have hlen : (l ++ [a]).length - 2 = l.length - 1 := by simp
  rw [hlen]
  exact List.getElem?_append_left (by omega)

lemma concat_take_full (l : List Nat) (a : Nat) :
    (l ++ [a]).take ((l ++ [a]).length - 1) = l := by
  have hlen : (l ++ [a]).length - 1 = l.length := by simp
  rw [hlen]
  exact List.take_left l [a]

lemma concat_take_dropLast (l : List Nat) (a : Nat) :
    (l ++ [a]).take ((l ++ [a]).length - 2) = l.dropLast := by
  have hlen : (l ++ [a]).length - 2 = l.length - 1 := by simp
  rw [hlen, List.take_append_eq_append_take]
  have h0 : l.length - 1 - l.length = 0 := by omega
  rw [h0, List.take_zero, List.append_nil, List.dropLast_eq_take]

lemma stripTerm_concat_CR (l : List Nat) (h : l[l.length - 1]? ≠ some CR) :
    stripTerm (l ++ [CR]) = l ∧ stripTerm l = l := by
  constructor
  · unfold stripTerm
    rw [if_pos (concat_last_getElem l CR)]
    simp
  · unfold stripTerm
    rw [if_neg h]

/-! ### Characterization of single chunk reads -/

lemma read_tracked_ok (h : Harvester) (t : Bool) (f : List Nat) (k : Nat)
    (hT : h.IsTracked = true) (hsz : h.size ≤ f.length) :
    h.read t ⟨f, none⟩ k =
      ({ h with size := f.length, info := some ⟨f.length⟩ },
       (readBytesLF (f.drop (h.Offset + k))).1,
       if (readBytesLF (f.drop (h.Offset + k))).2 then none else some RErr.eof) := by
  unfold Harvester.read Harvester.openH
  simp [hT, Nat.not_lt.mpr hsz]

lemma read_tracked_err (h : Harvester) (t : Bool) (f : List Nat) (msg : String) (k : Nat)
    (hT : h.IsTracked = true) (hsz : h.size ≤ f.length) :
    h.read t ⟨f, some msg⟩ k =
      ({ h with size := f.length, info := some ⟨f.length⟩ }, [], some (RErr.other msg)) := by
  unfold Harvester.read Harvester.openH
  simp [hT, Nat.not_lt.mpr hsz]

lemma read_tracked_trunc (h : Harvester) (t : Bool) (obs : Obs) (k : Nat)
    (hT : h.IsTracked = true) (hsz : obs.content.length < h.size) :
    h.read t obs k =
      ({ h with size := obs.content.length, info := some ⟨obs.content.length⟩ }, [],
       some RErr.truncated) := by
  unfold Harvester.read Harvester.openH
  simp [hT, hsz]

/-! ### Characterization of single `readline` loop iterations -/

lemma readlineStep_line (t : Bool) (T : Nat) (h : Harvester) (f l r : List Nat) (st c : Nat)
    (hT : h.IsTracked = true) (hsz : h.size ≤ f.length) (hl : LF ∉ l)
    (hdrop : f.drop h.Offset = l ++ LF :: r) :
    readlineStep t T h [] true 1 st c ⟨f, none⟩ =
      StepRes.done { h with size := f.length, info := some ⟨f.length⟩ } [] c
        (some (stripTerm l)) (l.length + 1) none := by
  have hread : h.read t ⟨f, none⟩ ([] : List Nat).length =
      ({ h with size := f.length, info := some ⟨f.length⟩ }, l ++ [LF], none) := by
    rw [read_tracked_ok h t f ([] : List Nat).length hT hsz]
    simp [hdrop, readBytesLF_line r hl]
  unfold readlineStep
  rw [hread]
  simp only []
  have hlineNow : 0 < (l ++ [LF]).length ∧ (l ++ [LF])[(l ++ [LF]).length - 1]? = some LF :=
    ⟨by simp, concat_last_getElem l LF⟩
  by_cases hc : l[l.length - 1]? = some CR
  · have hne : l ≠ [] := by
      intro he; rw [he] at hc; simp at hc
    have hlen1 : 1 < (l ++ [LF]).length := by
      have := List.length_pos.mpr hne; simp; omega
    have hcond : 0 < (l ++ [LF]).length ∧ (l ++ [LF])[(l ++ [LF]).length - 1]? = some LF
        ∧ 1 < (l ++ [LF]).length ∧ (l ++ [LF])[(l ++ [LF]).length - 2]? = some CR :=
      ⟨hlineNow.1, hlineNow.2, hlen1, by rw [concat_penult_getElem l LF hne]; exact hc⟩
    rw [if_pos hlineNow, if_pos hcond, if_neg (by simp)]
    have htext : ([] ++ (l ++ [LF])).take (([] ++ (l ++ [LF])).length - (1 + 1)) = stripTerm l := by
      simp only [List.nil_append]
      rw [show (l ++ [LF]).length - (1 + 1) = (l ++ [LF]).length - 2 from rfl,
        concat_take_dropLast l LF]
      unfold stripTerm
      rw [if_pos hc]
    rw [htext]
    simp
  · have hcond : ¬ (0 < (l ++ [LF]).length ∧ (l ++ [LF])[(l ++ [LF]).length - 1]? = some LF
        ∧ 1 < (l ++ [LF]).length ∧ (l ++ [LF])[(l ++ [LF]).length - 2]? = some CR) := by
      rintro ⟨-, -, hlen1, hpen⟩
      have hne : l ≠ [] := by
        intro he
        rw [he] at hlen1
        simp at hlen1
      rw [concat_penult_getElem l LF hne] at hpen
      exact hc hpen
    rw [if_pos hlineNow, if_neg hcond, if_neg (by simp)]
    have htext : ([] ++ (l ++ [LF])).take (([] ++ (l ++ [LF])).length - 1) = stripTerm l := by
      simp only [List.nil_append]
      rw [concat_take_full l LF]
      unfold stripTerm
      rw [if_neg hc]
    rw [htext]
    simp

lemma readlineStep_eof (t : Bool) (h : Harvester) (buffer f p : List Nat) (nl st c : Nat)
    (hT : h.IsTracked = true) (hsz : h.size ≤ f.length)
    (hdrop : f.drop (h.Offset + buffer.length) = p) (hp : LF ∉ p) :
    readlineStep t 10 h buffer true nl st c ⟨f, none⟩ =
      (if 10 < c + 1 - st then
        StepRes.done { h with size := f.length, info := some ⟨f.length⟩ } (buffer ++ p)
          (c + 1) none 0 (some RErr.eof)
      else
        StepRes.more { h with size := f.length, info := some ⟨f.length⟩ } (buffer ++ p)
          true nl (c + 1)) := by
  have hread : h.read t ⟨f, none⟩ buffer.length =
      ({ h with size := f.length, info := some ⟨f.length⟩ }, p, some RErr.eof) := by
    rw [read_tracked_ok h t f buffer.length hT hsz]
    simp [hdrop, readBytesLF_noLF hp]
  unfold readlineStep
  rw [hread]
  have h2 := noLF_not_lineNow hp
  have h4 : ¬ (0 < p.length ∧ p[p.length - 1]? = some LF
      ∧ 1 < p.length ∧ p[p.length - 2]? = some CR) := by
    rintro ⟨a, b, -, -⟩
    exact h2 ⟨a, b⟩
  simp [h2, h4]

lemma readlineStep_err (t : Bool) (T : Nat) (h : Harvester) (buffer f : List Nat)
    (msg : String) (nl st c : Nat)
    (hT : h.IsTracked = true) (hsz : h.size ≤ f.length) :
    readlineStep t T h buffer true nl st c ⟨f, some msg⟩ =
      StepRes.done { h with size := f.length, info := some ⟨f.length⟩ } buffer c
        none 0 (some (RErr.other msg)) := by
  have hread : h.read t ⟨f, some msg⟩ buffer.length =
      ({ h with size := f.length, info := some ⟨f.length⟩ }, [], some (RErr.other msg)) :=
    read_tracked_err h t f msg buffer.length hT hsz
  unfold readlineStep
  rw [hread]
  simp

lemma readlineStep_trunc (t : Bool) (T : Nat) (h : Harvester) (buffer : List Nat)
    (obs : Obs) (nl st c : Nat)
    (hT : h.IsTracked = true) (hsz : obs.content.length < h.size) :
    readlineStep t T h buffer true nl st c obs =
      StepRes.done { h with size := obs.content.length, info := some ⟨obs.content.length⟩ }
        buffer c none 0 (some RErr.truncated) := by
  have hread : h.read t obs buffer.length =
      ({ h with size := obs.content.length, info := some ⟨obs.content.length⟩ }, [],
       some RErr.truncated) :=
    read_tracked_trunc h t obs buffer.length hT hsz
  unfold readlineStep
  rw [hread]
  simp

/-! ### Characterization of whole `readline` calls -/

lemma readlineGo_cons (t : Bool) (T : Nat) (h : Harvester) (b : List Nat) (ip : Bool)
    (nl st c : Nat) (o : Obs) (rest : List Obs) :
    readlineGo t T h b ip nl st c (o :: rest) =
      match readlineStep t T h b ip nl st c o with
      | StepRes.done h1 b1 c1 text bytesread err =>
        some ⟨h1, b1, c1, rest, text, bytesread, err⟩
      | StepRes.more h1 b1 ip1 nl1 c1 => readlineGo t T h1 b1 ip1 nl1 st c1 rest := rfl

/-- A fresh `readline` call over a static file whose unread part starts with a
complete line returns that line, terminator stripped, counting the terminator
bytes, without consuming time, and resets the buffer. -/
lemma readline_emits (t : Bool) (T : Nat) (h : Harvester) (f l r : List Nat) (st c : Nat)
    (os : List Obs) (hT : h.IsTracked = true) (hsz : h.size ≤ f.length) (hl : LF ∉ l)
    (hdrop : f.drop h.Offset = l ++ LF :: r) :
    readlineGo t T h [] true 1 st c (⟨f, none⟩ :: os) =
      some ⟨{ h with size := f.length, info := some ⟨f.length⟩ }, [], c, os,
            some (stripTerm l), l.length + 1, none⟩ := by
  rw [readlineGo_cons, readlineStep_line t T h f l r st c hT hsz hl hdrop]

/-- The steady end-of-file loop: with no bytes left past the buffered ones,
each iteration sleeps one second, and the call returns `io.EOF` as soon as
the time since `start_time` exceeds the 10-second timeout — at `st + 11`. -/
lemma readline_eof_loop (t : Bool) :
    ∀ (m : Nat) (h : Harvester) (buffer : List Nat) (nl c st : Nat) (f : List Nat)
      (os : List Obs),
      h.IsTracked = true → h.size ≤ f.length → f.length ≤ h.Offset + buffer.length →
      st ≤ c → c + m = st + 11 → 0 < m →
      readlineGo t 10 h buffer true nl st c (List.replicate m ⟨f, none⟩ ++ os) =
        some ⟨{ h with size := f.length, info := some ⟨f.length⟩ }, buffer, st + 11, os,
              none, 0, some RErr.eof⟩ := by
  intro m
  induction m with
  | zero => intro h buffer nl c st f os _ _ _ _ _ h0; omega
  | succ k ih =>
    intro h buffer nl c st f os hT hsz hoff hstc hsum _
    have hdrop : f.drop (h.Offset + buffer.length) = ([] : List Nat) :=
      List.drop_eq_nil_of_le hoff
    have hstep := readlineStep_eof t h buffer f [] nl st c hT hsz hdrop (by simp)
    rw [List.replicate_succ, List.cons_append, readlineGo_cons, hstep]
    by_cases htime : 10 < c + 1 - st
    · rw [if_pos htime]
      have hk : k = 0 := by omega
      subst hk
      have hc : c + 1 = st + 11 := by omega
      rw [hc]
      simp
    · rw [if_neg htime]
      rw [List.append_nil]
      have hrec := ih { h with size := f.length, info := some ⟨f.length⟩ } buffer nl (c + 1)
        st f os (by simp [hT]) (by simp) (by simpa using hoff) (by omega) (by omega)
        (by omega)
      exact hrec.trans (by simp)

/-- A fresh `readline` call at end of file (no line feed in the remainder)
buffers the remaining bytes, then sleeps through 11 one-second retries and
returns `io.EOF` with no text and a zero byte count. -/
lemma readline_eof (t : Bool) (h : Harvester) (buffer f p : List Nat) (c : Nat) (os : List Obs)
    (hT : h.IsTracked = true) (hsz : h.size ≤ f.length)
    (hdrop : f.drop (h.Offset + buffer.length) = p) (hp : LF ∉ p) :
    readlineGo t 10 h buffer true 1 c c (List.replicate 11 ⟨f, none⟩ ++ os) =
      some ⟨{ h with size := f.length, info := some ⟨f.length⟩ }, buffer ++ p, c + 11, os,
            none, 0, some RErr.eof⟩ := by
  have hlen := congrArg List.length hdrop
  rw [List.length_drop] at hlen
  have hstep := readlineStep_eof t h buffer f p 1 c c hT hsz hdrop hp
  rw [show List.replicate 11 (⟨f, none⟩ : Obs) = ⟨f, none⟩ :: List.replicate 10 ⟨f, none⟩
    from rfl]
  rw [List.cons_append, readlineGo_cons, hstep, if_neg (by omega)]
  have hrec := readline_eof_loop t 10 { h with size := f.length, info := some ⟨f.length⟩ }
    (buffer ++ p) 1 (c + 1) c f os (by simp [hT]) (by simp)
    (by simp; omega) (by omega) (by omega) (by omega)
  exact hrec.trans (by simp)

/-- A fresh `readline` call whose chunk read fails with a non-EOF I/O error
returns that error immediately: no text, zero byte count, buffer unchanged,
no time consumed. -/
lemma readline_err (t : Bool) (T : Nat) (h : Harvester) (buffer f : List Nat) (msg : String)
    (st c : Nat) (os : List Obs) (hT : h.IsTracked = true) (hsz : h.size ≤ f.length) :
    readlineGo t T h buffer true 1 st c (⟨f, some msg⟩ :: os) =
      some ⟨{ h with size := f.length, info := some ⟨f.length⟩ }, buffer, c, os, none, 0,
            some (RErr.other msg)⟩ := by
  rw [readlineGo_cons, readlineStep_err t T h buffer f msg 1 st c hT hsz]

/-! ### The first open of an untracked read-from-start harvester -/

lemma read_fresh (h : Harvester) (obs : Obs) (k : Nat) (hT : h.IsTracked = false) :
    h.read false obs k =
      ({ h with IsTracked := true, Offset := 0 } : Harvester).read false obs k := by
  unfold Harvester.read Harvester.openH
  simp [hT]

lemma readlineStep_fresh (T : Nat) (h : Harvester) (b : List Nat) (ip : Bool) (nl st c : Nat)
    (o : Obs) (hT : h.IsTracked = false) :
    readlineStep false T h b ip nl st c o =
      readlineStep false T { h with IsTracked := true, Offset := 0 } b ip nl st c o := by
  unfold readlineStep
  rw [read_fresh h o b.length hT]

lemma readlineGo_fresh (T : Nat) (h : Harvester) (b : List Nat) (ip : Bool) (nl st c : Nat)
    (obsList : List Obs) (hT : h.IsTracked = false) :
    readlineGo false T h b ip nl st c obsList =
      readlineGo false T { h with IsTracked := true, Offset := 0 } b ip nl st c obsList := by
  cases obsList with
  | nil => rfl
  | cons o rest =>
    rw [readlineGo_cons, readlineGo_cons, readlineStep_fresh T h b ip nl st c o hT]

lemma harvestGo_fresh (fuel : Nat) (h : Harvester) (b : List Nat) (line lrt c : Nat)
    (obsList : List Obs) (hT : h.IsTracked = false) :
    harvestGo false fuel h b line lrt c obsList =
      harvestGo false fuel { h with IsTracked := true, Offset := 0 } b line lrt c obsList := by
  cases fuel with
  | zero => rfl
  | succ n =>
    simp only [harvestGo, Harvester.readline]
    rw [readlineGo_fresh 10 h b true 1 c c obsList hT]

/-! ### Arithmetic helpers on the spec-side functions -/

lemma drop_shift {f a b : List Nat} {o : Nat} (hd : f.drop o = a ++ b) :
    f.drop (o + a.length) = b := by
  have h1 := congrArg (List.drop a.length) hd
  rw [List.drop_drop] at h1
  rw [List.drop_left] at h1
  exact h1

lemma termLen_nil : termLen [] = 0 := rfl

lemma termLen_cons (l : List Nat) (ls : List (List Nat)) :
    termLen (l :: ls) = l.length + 1 + termLen ls := by
  simp [termLen]

/-- Unfolding of one `Harvest` loop iteration whose `readline` timed out at
end of file and whose dead time is exceeded: the Dead return. -/
lemma harvestGo_step_dead (t : Bool) (fuel : Nat) (h : Harvester) (b0 : List Nat)
    (line lrt c : Nat) {obsList : List Obs} {hr : Harvester} {b1 : List Nat} {c1 : Nat}
    {rest : List Obs}
    (hrl : h.readline t b0 10 c obsList = some ⟨hr, b1, c1, rest, none, 0, some RErr.eof⟩)
    (hdead : hr.fileConfig.deadtime < c1 - lrt) :
    harvestGo t (fuel + 1) h b0 line lrt c obsList =
      some ⟨[], [hr.Offset], hr, b1, c1, rest, ExitKind.dead⟩ := by
  simp only [harvestGo]
  rw [hrl]
  show (if hr.fileConfig.deadtime < c1 - lrt then
      some (⟨[], [hr.Offset], hr, b1, c1, rest, ExitKind.dead⟩ : HvOut)
    else harvestGo t fuel hr b1 line lrt c1 rest) = _
  rw [if_pos hdead]

/-- Unfolding of one `Harvest` loop iteration whose `readline` timed out at
end of file with the dead time not yet exceeded: the loop continues. -/
lemma harvestGo_step_eof_cont (t : Bool) (fuel : Nat) (h : Harvester) (b0 : List Nat)
    (line lrt c : Nat) {obsList : List Obs} {hr : Harvester} {b1 : List Nat} {c1 : Nat}
    {rest : List Obs}
    (hrl : h.readline t b0 10 c obsList = some ⟨hr, b1, c1, rest, none, 0, some RErr.eof⟩)
    (hlive : ¬ hr.fileConfig.deadtime < c1 - lrt) :
    harvestGo t (fuel + 1) h b0 line lrt c obsList =
      harvestGo t fuel hr b1 line lrt c1 rest := by
  simp only [harvestGo]
  rw [hrl]
  show (if hr.fileConfig.deadtime < c1 - lrt then
      some (⟨[], [hr.Offset], hr, b1, c1, rest, ExitKind.dead⟩ : HvOut)
    else harvestGo t fuel hr b1 line lrt c1 rest) = _
  rw [if_neg hlive]

/-- Unfolding of one `Harvest` loop iteration whose `readline` reported
`FILE_TRUNCATED`: the offset resets to 0 and the loop continues (with the
buffer exactly as `readline` left it). -/
lemma harvestGo_step_trunc (t : Bool) (fuel : Nat) (h : Harvester) (b0 : List Nat)
    (line lrt c : Nat) {obsList : List Obs} {hr : Harvester} {b1 : List Nat} {c1 : Nat}
    {rest : List Obs}
    (hrl : h.readline t b0 10 c obsList =
      some ⟨hr, b1, c1, rest, none, 0, some RErr.truncated⟩) :
    harvestGo t (fuel + 1) h b0 line lrt c obsList =
      harvestGo t fuel { hr with Offset := 0 } b1 line lrt c1 rest := by
  simp only [harvestGo]
  rw [hrl]

/-- Unfolding of one `Harvest` loop iteration whose `readline` reported an
unexpected I/O error: the Aborted return. -/
lemma harvestGo_step_abort (t : Bool) (fuel : Nat) (h : Harvester) (b0 : List Nat)
    (line lrt c : Nat) {obsList : List Obs} {hr : Harvester} {b1 : List Nat} {c1 : Nat}
    {rest : List Obs} {msg : String}
    (hrl : h.readline t b0 10 c obsList =
      some ⟨hr, b1, c1, rest, none, 0, some (RErr.other msg)⟩) :
    harvestGo t (fuel + 1) h b0 line lrt c obsList =
      some ⟨[], [hr.Offset], hr, b1, c1, rest, ExitKind.aborted (RErr.other msg)⟩ := by
  simp only [harvestGo]
  rw [hrl]

/-- Unfolding of one `Harvest` loop iteration whose `readline` returned a
complete line: the event is built from the pre-advance offset, the offset
advances by the byte count, and the rest of the run is appended. -/
lemma harvestGo_step_line (t : Bool) (fuel : Nat) (h : Harvester) (b0 : List Nat)
    (line lrt c : Nat) {obsList : List Obs} {hr : Harvester} {b1 : List Nat} {c1 : Nat}
    {rest : List Obs} {tx : Option (List Nat)} {n : Nat} {out : HvOut}
    (hrl : h.readline t b0 10 c obsList = some ⟨hr, b1, c1, rest, tx, n, none⟩)
    (hrec : harvestGo t fuel { hr with Offset := hr.Offset + n } b1 (line + 1) c1 c1 rest =
      some out) :
    harvestGo t (fuel + 1) h b0 line lrt c obsList =
      some ⟨(⟨hr.Path, hr.Offset, line + 1, tx, hr.fileConfig.Fields, hr.info⟩ : FileEvent)
        :: out.events, out.pushes, out.h, out.buffer, out.clock, out.rest, out.exit⟩ := by
  simp only [harvestGo]
  rw [hrl]
  show (match harvestGo t fuel { hr with Offset := hr.Offset + n } b1 (line + 1) c1 c1 rest
      with
    | none => none
    | some out =>
      some (⟨(⟨hr.Path, hr.Offset, line + 1, tx, hr.fileConfig.Fields, hr.info⟩ : FileEvent)
        :: out.events, out.pushes, out.h, out.buffer, out.clock, out.rest,
        out.exit⟩ : HvOut)) = _
  rw [hrec]

/-! ### The main run lemma: a harvester over a static file -/

/-- A tracked harvester over a static file whose unread part is a list of
terminated lines followed by a line-feed-free remainder emits exactly the
expected events (in file order, one per terminated line), then waits out the
end-of-file timeout once, finds the dead time exceeded (it is at most 10
seconds, and 11 seconds of back-off sleeping have passed since the last
activity), returns via the Dead branch, and pushes exactly the offset just
past the last fully emitted line.  The unterminated remainder stays in the
buffer and is never counted into the offset. -/
lemma harvest_static_run (t : Bool) :
    ∀ (ls : List (List Nat)) (h : Harvester) (f p : List Nat) (line lrt c : Nat)
      (os : List Obs),
      h.IsTracked = true → h.size ≤ f.length →
      (∀ l ∈ ls, LF ∉ l) → f.drop h.Offset = joinLines ls ++ p → LF ∉ p →
      h.fileConfig.deadtime ≤ 10 → lrt ≤ c →
      harvestGo t (ls.length + 1) h [] line lrt c
          (List.replicate ls.length ⟨f, none⟩ ++ List.replicate 11 ⟨f, none⟩ ++ os) =
        some ⟨expectedEvents h.Path h.fileConfig.Fields f.length h.Offset line ls,
              [h.Offset + termLen ls],
              { h with
                  size := f.length, info := some ⟨f.length⟩
                  Offset := h.Offset + termLen ls },
              p, c + 11, os, ExitKind.dead⟩ := by
  intro ls
  induction ls with
  | nil =>
    intro h f p line lrt c os hT hsz hls hdrop hp hdt hlrt
    have hdrop0 : f.drop (h.Offset + ([] : List Nat).length) = p := by
      simpa [joinLines] using hdrop
    have hrl : h.readline t [] 10 c (List.replicate 11 ⟨f, none⟩ ++ os) =
        some ⟨{ h with size := f.length, info := some ⟨f.length⟩ }, [] ++ p, c + 11, os,
          none, 0, some RErr.eof⟩ := by
      unfold Harvester.readline
      exact readline_eof t h [] f p c os hT hsz hdrop0 hp
    simp only [List.length_nil, List.replicate_zero, List.nil_append]
    rw [harvestGo_step_dead t 0 h [] line lrt c hrl (by simp; omega)]
    simp [expectedEvents, termLen]
  | cons l ls ih =>
    intro h f p line lrt c os hT hsz hls hdrop hp hdt hlrt
    have hhead : LF ∉ l := hls l (List.mem_cons_self l ls)
    have htail : ∀ x ∈ ls, LF ∉ x := fun x hx => hls x (List.mem_cons_of_mem l hx)
    have hdrop1 : f.drop h.Offset = l ++ LF :: (joinLines ls ++ p) := by
      rw [hdrop]
      simp [joinLines]
    have hrl : h.readline t [] 10 c (⟨f, none⟩ ::
        (List.replicate ls.length ⟨f, none⟩ ++ List.replicate 11 ⟨f, none⟩ ++ os)) =
        some ⟨{ h with size := f.length, info := some ⟨f.length⟩ }, [], c,
          List.replicate ls.length ⟨f, none⟩ ++ List.replicate 11 ⟨f, none⟩ ++ os,
          some (stripTerm l), l.length + 1, none⟩ := by
      unfold Harvester.readline
      exact readline_emits t 10 h f l (joinLines ls ++ p) c c _ hT hsz hhead hdrop1
    have hobs : List.replicate ((l :: ls).length) (⟨f, none⟩ : Obs)
        ++ List.replicate 11 ⟨f, none⟩ ++ os =
        ⟨f, none⟩ :: (List.replicate ls.length ⟨f, none⟩ ++ List.replicate 11 ⟨f, none⟩
          ++ os) := by
      simp [List.replicate_succ]
    rw [hobs]
    simp only [List.length_cons]
    have hdrop2 : f.drop (h.Offset + (l.length + 1)) = joinLines ls ++ p := by
      have h2 : f.drop (h.Offset + (l ++ [LF]).length) = joinLines ls ++ p := by
        apply drop_shift
        rw [hdrop1]
        simp
      simpa using h2
    have hrec := ih { h with
        size := f.length, info := some ⟨f.length⟩
        Offset := h.Offset + (l.length + 1) } f p (line + 1) c c os
      (by simp [hT]) (by simp) htail (by simpa using hdrop2) hp (by simpa using hdt)
      (le_refl c)
    rw [harvestGo_step_line t (ls.length + 1) h [] line lrt c hrl hrec]
    simp [expectedEvents, termLen_cons, Nat.add_assoc]

/-- Variant of the main run lemma ending in an unexpected I/O error: the
harvester emits the lines read so far, then the failing read aborts the run;
the offset pushed is exactly the offset just past the last emitted line —
a failed read never advances it. -/
lemma harvest_abort_run (t : Bool) :
    ∀ (ls : List (List Nat)) (h : Harvester) (f p : List Nat) (msg : String)
      (line lrt c : Nat) (os : List Obs),
      h.IsTracked = true → h.size ≤ f.length →
      (∀ l ∈ ls, LF ∉ l) → f.drop h.Offset = joinLines ls ++ p →
      harvestGo t (ls.length + 1) h [] line lrt c
          (List.replicate ls.length ⟨f, none⟩ ++ ⟨f, some msg⟩ :: os) =
        some ⟨expectedEvents h.Path h.fileConfig.Fields f.length h.Offset line ls,
              [h.Offset + termLen ls],
              { h with
                  size := f.length, info := some ⟨f.length⟩
                  Offset := h.Offset + termLen ls },
              [], c, os, ExitKind.aborted (RErr.other msg)⟩ := by
  intro ls
  induction ls with
  | nil =>
    intro h f p msg line lrt c os hT hsz hls hdrop
    have hrl : h.readline t [] 10 c (⟨f, some msg⟩ :: os) =
        some ⟨{ h with size := f.length, info := some ⟨f.length⟩ }, [], c, os,
          none, 0, some (RErr.other msg)⟩ := by
      unfold Harvester.readline
      exact readline_err t 10 h [] f msg c c os hT hsz
    simp only [List.length_nil, List.replicate_zero, List.nil_append]
    rw [harvestGo_step_abort t 0 h [] line lrt c hrl]
    simp [expectedEvents, termLen]
  | cons l ls ih =>
    intro h f p msg line lrt c os hT hsz hls hdrop
    have hhead : LF ∉ l := hls l (List.mem_cons_self l ls)
    have htail : ∀ x ∈ ls, LF ∉ x := fun x hx => hls x (List.mem_cons_of_mem l hx)
    have hdrop1 : f.drop h.Offset = l ++ LF :: (joinLines ls ++ p) := by
      rw [hdrop]
      simp [joinLines]
    have hrl : h.readline t [] 10 c (⟨f, none⟩ ::
        (List.replicate ls.length ⟨f, none⟩ ++ ⟨f, some msg⟩ :: os)) =
        some ⟨{ h with size := f.length, info := some ⟨f.length⟩ }, [], c,
          List.replicate ls.length ⟨f, none⟩ ++ ⟨f, some msg⟩ :: os,
          some (stripTerm l), l.length + 1, none⟩ := by
      unfold Harvester.readline
      exact readline_emits t 10 h f l (joinLines ls ++ p) c c _ hT hsz hhead hdrop1
    have hobs : List.replicate ((l :: ls).length) (⟨f, none⟩ : Obs)
        ++ ⟨f, some msg⟩ :: os =
        ⟨f, none⟩ :: (List.replicate ls.length ⟨f, none⟩ ++ ⟨f, some msg⟩ :: os) := by
      simp [List.replicate_succ]
    rw [hobs]
    simp only [List.length_cons]
    have hdrop2 : f.drop (h.Offset + (l.length + 1)) = joinLines ls ++ p := by
      have h2 : f.drop (h.Offset + (l ++ [LF]).length) = joinLines ls ++ p := by
        apply drop_shift
        rw [hdrop1]
        simp
      simpa using h2
    have hrec := ih { h with
        size := f.length, info := some ⟨f.length⟩
        Offset := h.Offset + (l.length + 1) } f p msg (line + 1) c c os
      (by simp [hT]) (by simp) htail (by simpa using hdrop2)
    rw [harvestGo_step_line t (ls.length + 1) h [] line lrt c hrl hrec]
    simp [expectedEvents, termLen_cons, Nat.add_assoc]

/-! ### Preservation of path and configuration across the loop -/

lemma openH_path_config (h : Harvester) (t : Bool) (f : List Nat) :
    (h.openH t f).Path = h.Path ∧ (h.openH t f).fileConfig = h.fileConfig := by
  unfold Harvester.openH
  split
  · exact ⟨rfl, rfl⟩
  · split <;> exact ⟨rfl, rfl⟩

lemma read_fst (h : Harvester) (t : Bool) (o : Obs) (k : Nat) :
    (h.read t o k).1 = { h.openH t o.content with
      size := o.content.length
      info := some ⟨o.content.length⟩ } := by
  unfold Harvester.read
  dsimp only
  split
  · rfl
  · split <;> rfl

lemma read_path_config (h : Harvester) (t : Bool) (o : Obs) (k : Nat) :
    (h.read t o k).1.Path = h.Path ∧ (h.read t o k).1.fileConfig = h.fileConfig := by
  obtain ⟨hp, hc⟩ := openH_path_config h t o.content
  rw [read_fst]
  exact ⟨hp, hc⟩

/-- The harvester state a `readline` loop iteration leaves behind. -/
def StepRes.hOf : StepRes → Harvester
  | StepRes.more h1 _ _ _ _ => h1
  | StepRes.done h1 _ _ _ _ _ => h1

lemma readlineStep_hOf (t : Bool) (T : Nat) (h : Harvester) (b : List Nat) (ip : Bool)
    (nl st c : Nat) (o : Obs) :
    (readlineStep t T h b ip nl st c o).hOf = (h.read t o b.length).1 := by
  unfold readlineStep
  dsimp only
  repeat' split
  all_goals rfl

lemma readlineGo_path_config (t : Bool) (T : Nat) :
    ∀ (obsList : List Obs) (h : Harvester) (b : List Nat) (ip : Bool) (nl st c : Nat)
      (r : RlOut),
      readlineGo t T h b ip nl st c obsList = some r →
      r.h.Path = h.Path ∧ r.h.fileConfig = h.fileConfig := by
  intro obsList
  induction obsList with
  | nil =>
    intro h b ip nl st c r hgo
    exact absurd hgo (by simp [readlineGo])
  | cons o rest ih =>
    intro h b ip nl st c r hgo
    rw [readlineGo_cons] at hgo
    have hstep := readlineStep_hOf t T h b ip nl st c o
    obtain ⟨hp, hc⟩ := read_path_config h t o b.length
    split at hgo
    case h_1 h1 b1 c1 tx n err heq =>
      rw [heq] at hstep
      cases hgo
      simp only [StepRes.hOf] at hstep
      rw [hstep]
      exact ⟨hp, hc⟩
    case h_2 h1 b1 ip1 nl1 c1 heq =>
      rw [heq] at hstep
      simp only [StepRes.hOf] at hstep
      obtain ⟨hp1, hc1⟩ := ih h1 b1 ip1 nl1 st c1 r hgo
      rw [hstep] at hp1 hc1
      exact ⟨hp1.trans hp, hc1.trans hc⟩

/-! ### Per-run invariants of the `Harvest` loop -/

/-- Every successful `Harvest` run pushes exactly one value on the
completion channel — the final offset — no matter which terminal branch
returned. -/
lemma harvestGo_pushes (t : Bool) :
    ∀ (fuel : Nat) (h : Harvester) (b : List Nat) (line lrt c : Nat) (obsList : List Obs)
      (out : HvOut),
      harvestGo t fuel h b line lrt c obsList = some out →
      out.pushes = [out.h.Offset] := by
  intro fuel
  induction fuel with
  | zero =>
    intro h b line lrt c obsList out hgo
    exact absurd hgo (by simp [harvestGo])
  | succ n ih =>
    intro h b line lrt c obsList out hgo
    simp only [harvestGo] at hgo
    split at hgo
    · exact absurd hgo (by simp)
    · split at hgo
      · exact ih _ _ _ _ _ _ _ hgo
      · split at hgo
        · cases hgo
          rfl
        · exact ih _ _ _ _ _ _ _ hgo
      · cases hgo
        rfl
      · split at hgo
        · exact absurd hgo (by simp)
        · cases hgo
          simpa using ih _ _ _ _ _ _ _ (by assumption)

/-- In every successful `Harvest` run started with line counter `line`, the
emitted events carry consecutive line numbers starting at `line + 1`, and
each of them carries the harvester's (immutable) source path and configured
tag fields. -/
lemma harvest_lines (t : Bool) :
    ∀ (fuel : Nat) (h : Harvester) (b : List Nat) (line lrt c : Nat) (obsList : List Obs)
      (out : HvOut),
      harvestGo t fuel h b line lrt c obsList = some out →
      out.events.map FileEvent.Line = List.range' (line + 1) out.events.length ∧
      ∀ e ∈ out.events, e.Source = h.Path ∧ e.Fields = h.fileConfig.Fields := by
  intro fuel
  induction fuel with
  | zero =>
    intro h b line lrt c obsList out hgo
    exact absurd hgo (by simp [harvestGo])
  | succ n ih =>
    intro h b line lrt c obsList out hgo
    simp only [harvestGo] at hgo
    split at hgo
    · exact absurd hgo (by simp)
    case h_2 r heq =>
      have hpc : r.h.Path = h.Path ∧ r.h.fileConfig = h.fileConfig :=
        readlineGo_path_config t 10 obsList h b true 1 c c r
          (by simpa [Harvester.readline] using heq)
      split at hgo
      · -- truncated: continue with offset reset
        obtain ⟨h1, h2⟩ := ih _ _ _ _ _ _ _ hgo
        refine ⟨h1, fun e he => ?_⟩
        obtain ⟨hs, hf⟩ := h2 e he
        simp only [hs, hf]
        exact ⟨hpc.1, congrArg FileConfig.Fields hpc.2⟩
      · split at hgo
        · cases hgo
          exact ⟨rfl, by simp⟩
        · obtain ⟨h1, h2⟩ := ih _ _ _ _ _ _ _ hgo
          refine ⟨h1, fun e he => ?_⟩
          obtain ⟨hs, hf⟩ := h2 e he
          simp only [hs, hf]
          exact ⟨hpc.1, congrArg FileConfig.Fields hpc.2⟩
      · cases hgo
        exact ⟨rfl, by simp⟩
      · split at hgo
        · exact absurd hgo (by simp)
        case h_2 out1 heq1 =>
          cases hgo
          obtain ⟨h1, h2⟩ := ih _ _ _ _ _ _ _ heq1
          constructor
          · simp only [List.map_cons, List.length_cons]
            rw [List.range'_succ]
            simp [h1]
          · intro e he
            simp only [List.mem_cons] at he
            cases he with
            | inl hev =>
              subst hev
              exact ⟨hpc.1, congrArg FileConfig.Fields hpc.2⟩
            | inr htl =>
              obtain ⟨hs, hf⟩ := h2 e htl
              simp only [hs, hf]
              exact ⟨hpc.1, congrArg FileConfig.Fields hpc.2⟩

/-! ### Projections of the expected event list -/

lemma expectedEvents_length (path : String) (fields : List (String × String)) (fsize : Nat) :
    ∀ (ls : List (List Nat)) (o n : Nat),
      (expectedEvents path fields fsize o n ls).length = ls.length := by
  intro ls
  induction ls with
  | nil => intro o n; rfl
  | cons l ls ih =>
    intro o n
    simp [expectedEvents, ih]

lemma expectedEvents_map_text (path : String) (fields : List (String × String)) (fsize : Nat) :
    ∀ (ls : List (List Nat)) (o n : Nat),
      (expectedEvents path fields fsize o n ls).map FileEvent.Text =
        ls.map (fun l => some (stripTerm l)) := by
  intro ls
  induction ls with
  | nil => intro o n; rfl
  | cons l ls ih =>
    intro o n
    simp [expectedEvents, ih]

lemma expectedEvents_map_offset (path : String) (fields : List (String × String))
    (fsize : Nat) :
    ∀ (ls : List (List Nat)) (o n : Nat),
      (expectedEvents path fields fsize o n ls).map FileEvent.Offset = lineOffsets o ls := by
  intro ls
  induction ls with
  | nil => intro o n; rfl
  | cons l ls ih =>
    intro o n
    simp [expectedEvents, lineOffsets, ih]

lemma expectedEvents_map_line (path : String) (fields : List (String × String))
    (fsize : Nat) :
    ∀ (ls : List (List Nat)) (o n : Nat),
      (expectedEvents path fields fsize o n ls).map FileEvent.Line =
        List.range' (n + 1) ls.length := by
  intro ls
  induction ls with
  | nil => intro o n; rfl
  | cons l ls ih =>
    intro o n
    rw [List.length_cons, List.range'_succ]
    simp [expectedEvents, ih]

lemma lineOffsets_chain : ∀ (ls : List (List Nat)) (o : Nat),
    List.Chain' (· ≤ ·) (lineOffsets o ls) := by
  intro ls
  induction ls with
  | nil => intro o; simp [lineOffsets]
  | cons l ls ih =>
    intro o
    rw [lineOffsets, List.chain'_cons']
    refine ⟨fun b hb => ?_, ih (o + (l.length + 1))⟩
    cases ls with
    | nil => simp [lineOffsets] at hb
    | cons x xs =>
      simp [lineOffsets] at hb
      omega

lemma joinLines_length : ∀ (ls : List (List Nat)), (joinLines ls).length = termLen ls := by
  intro ls
  induction ls with
  | nil => rfl
  | cons l ls ih =>
    rw [joinLines, termLen_cons]
    simp [ih]
    omega

/-! ### Fresh-start scenario lemmas -/

/-- A read-from-start harvester (untracked, tail mode off) over the static
file `joinLines ls ++ p`: the first open decides position 0 once, and the run
behaves as the tracked run from offset 0. -/
lemma harvest_fresh_run (ls : List (List Nat)) (p : List Nat) (h : Harvester)
    (line lrt c : Nat) (os : List Obs)
    (hT : h.IsTracked = false) (hsz : h.size = 0)
    (hls : ∀ l ∈ ls, LF ∉ l) (hp : LF ∉ p)
    (hdt : h.fileConfig.deadtime ≤ 10) (hlrt : lrt ≤ c) :
    harvestGo false (ls.length + 1) h [] line lrt c
        (List.replicate ls.length ⟨joinLines ls ++ p, none⟩ ++
          List.replicate 11 ⟨joinLines ls ++ p, none⟩ ++ os) =
      some ⟨expectedEvents h.Path h.fileConfig.Fields (joinLines ls ++ p).length 0 line ls,
            [termLen ls],
            { h with
                IsTracked := true, size := (joinLines ls ++ p).length
                info := some ⟨(joinLines ls ++ p).length⟩, Offset := termLen ls },
            p, c + 11, os, ExitKind.dead⟩ := by
  rw [harvestGo_fresh (ls.length + 1) h [] line lrt c _ hT]
  have hrun := harvest_static_run false ls { h with IsTracked := true, Offset := 0 }
    (joinLines ls ++ p) p line lrt c os (by simp) (by simp [hsz]) hls (by simp) hp
    (by simpa using hdt) hlrt
  exact hrun.trans (by simp)

/-- Abort variant of `harvest_fresh_run`: the run over the lines ends in an
unexpected I/O error instead of dead time. -/
lemma harvest_fresh_abort (ls : List (List Nat)) (p : List Nat) (h : Harvester)
    (msg : String) (line lrt c : Nat) (os : List Obs)
    (hT : h.IsTracked = false) (hsz : h.size = 0)
    (hls : ∀ l ∈ ls, LF ∉ l) :
    harvestGo false (ls.length + 1) h [] line lrt c
        (List.replicate ls.length ⟨joinLines ls ++ p, none⟩ ++
          ⟨joinLines ls ++ p, some msg⟩ :: os) =
      some ⟨expectedEvents h.Path h.fileConfig.Fields (joinLines ls ++ p).length 0 line ls,
            [termLen ls],
            { h with
                IsTracked := true, size := (joinLines ls ++ p).length
                info := some ⟨(joinLines ls ++ p).length⟩, Offset := termLen ls },
            [], c, os, ExitKind.aborted (RErr.other msg)⟩ := by
  rw [harvestGo_fresh (ls.length + 1) h [] line lrt c _ hT]
  have hrun := harvest_abort_run false ls { h with IsTracked := true, Offset := 0 }
    (joinLines ls ++ p) p msg line lrt c os (by simp) (by simp [hsz]) hls (by simp)
  exact hrun.trans (by simp)

/-! ### The claims -/

/-- **C1** (line integrity): a harvester started fresh (`isTracked` false,
read-from-start mode) on a file of `N` newline-terminated lines followed by
one unterminated fragment emits exactly `N` events, in file order, each
event's text the corresponding line with its terminator stripped; the
trailing fragment is never emitted — it stays in the buffer and the run ends
without an event for it. -/
theorem c1_line_integrity (ls : List (List Nat)) (p : List Nat) (h : Harvester)
    (c : Nat) (os : List Obs)
    (hT : h.IsTracked = false) (hsz : h.size = 0)
    (hls : ∀ l ∈ ls, LF ∉ l) (hp : LF ∉ p) (hdt : h.fileConfig.deadtime ≤ 10) :
    h.Harvest false (ls.length + 1) c
        (List.replicate ls.length ⟨joinLines ls ++ p, none⟩ ++
          List.replicate 11 ⟨joinLines ls ++ p, none⟩ ++ os) =
      some ⟨expectedEvents h.Path h.fileConfig.Fields (joinLines ls ++ p).length 0 0 ls,
            [termLen ls],
            { h with
                IsTracked := true, size := (joinLines ls ++ p).length
                info := some ⟨(joinLines ls ++ p).length⟩, Offset := termLen ls },
            p, c + 11, os, ExitKind.dead⟩ ∧
    (expectedEvents h.Path h.fileConfig.Fields (joinLines ls ++ p).length 0 0 ls).length
      = ls.length ∧
    (expectedEvents h.Path h.fileConfig.Fields (joinLines ls ++ p).length 0 0 ls).map
      FileEvent.Text = ls.map (fun l => some (stripTerm l)) := by
  refine ⟨?_, expectedEvents_length _ _ _ ls 0 0, expectedEvents_map_text _ _ _ ls 0 0⟩
  unfold Harvester.Harvest
  exact harvest_fresh_run ls p h 0 c c os hT hsz hls hp hdt (le_refl c)

/-- Witness for C1 at a concrete file "a\nbc\n" + fragment "d". -/
theorem c1_witness :
    Harvester.Harvest ⟨false, "log", ⟨5, [("t", "x")]⟩, 7, 0, none⟩ false 3 0
        (List.replicate 2 ⟨[97, 10, 98, 99, 10, 100], none⟩ ++
          List.replicate 11 ⟨[97, 10, 98, 99, 10, 100], none⟩ ++ []) =
      some ⟨expectedEvents "log" [("t", "x")] 6 0 0 [[97], [98, 99]],
            [termLen [[97], [98, 99]]],
            ⟨true, "log", ⟨5, [("t", "x")]⟩, termLen [[97], [98, 99]], 6, some ⟨6⟩⟩,
            [100], 11, [], ExitKind.dead⟩ :=
  (c1_line_integrity [[97], [98, 99]] [100] ⟨false, "log", ⟨5, [("t", "x")]⟩, 7, 0, none⟩
    0 [] rfl rfl (by decide) (by decide) (by decide)).1

/-- **C5** (offset invariant): in the fresh static run, each event's offset
is the byte position immediately after the previously emitted lines (the
prefix sums of terminated line lengths), the sequence of offsets is
non-decreasing, and the final tracked offset is exactly the position after
the last fully emitted line: the `p.length` buffered fragment bytes are never
counted into it. -/
theorem c5_offset_invariant (ls : List (List Nat)) (p : List Nat) (h : Harvester)
    (c : Nat) (os : List Obs)
    (hT : h.IsTracked = false) (hsz : h.size = 0)
    (hls : ∀ l ∈ ls, LF ∉ l) (hp : LF ∉ p) (hdt : h.fileConfig.deadtime ≤ 10) :
    h.Harvest false (ls.length + 1) c
        (List.replicate ls.length ⟨joinLines ls ++ p, none⟩ ++
          List.replicate 11 ⟨joinLines ls ++ p, none⟩ ++ os) =
      some ⟨expectedEvents h.Path h.fileConfig.Fields (joinLines ls ++ p).length 0 0 ls,
            [termLen ls],
            { h with
                IsTracked := true, size := (joinLines ls ++ p).length
                info := some ⟨(joinLines ls ++ p).length⟩, Offset := termLen ls },
            p, c + 11, os, ExitKind.dead⟩ ∧
    (expectedEvents h.Path h.fileConfig.Fields (joinLines ls ++ p).length 0 0 ls).map
      FileEvent.Offset = lineOffsets 0 ls ∧
    List.Chain' (· ≤ ·) (lineOffsets 0 ls) ∧
    termLen ls = (joinLines ls).length ∧
    termLen ls + p.length = (joinLines ls ++ p).length := by
  refine ⟨?_, expectedEvents_map_offset _ _ _ ls 0 0, lineOffsets_chain ls 0,
    (joinLines_length ls).symm, by simp [joinLines_length]⟩
  unfold Harvester.Harvest
  exact harvest_fresh_run ls p h 0 c c os hT hsz hls hp hdt (le_refl c)

/-- Witness for C5 at the same concrete file "a\nbc\n" + fragment "d". -/
theorem c5_witness :
    (Harvester.Harvest ⟨false, "log", ⟨5, [("t", "x")]⟩, 7, 0, none⟩ false 3 0
        (List.replicate 2 ⟨[97, 10, 98, 99, 10, 100], none⟩ ++
          List.replicate 11 ⟨[97, 10, 98, 99, 10, 100], none⟩ ++ []) =
      some ⟨expectedEvents "log" [("t", "x")] 6 0 0 [[97], [98, 99]],
            [termLen [[97], [98, 99]]],
            ⟨true, "log", ⟨5, [("t", "x")]⟩, termLen [[97], [98, 99]], 6, some ⟨6⟩⟩,
            [100], 11, [], ExitKind.dead⟩) ∧
    (expectedEvents "log" [("t", "x")] 6 0 0 [[97], [98, 99]]).map FileEvent.Offset =
      lineOffsets 0 [[97], [98, 99]] ∧
    termLen [[97], [98, 99]] + ([100] : List Nat).length = 6 := by
  have hit := c5_offset_invariant [[97], [98, 99]] [100]
    ⟨false, "log", ⟨5, [("t", "x")]⟩, 7, 0, none⟩ 0 [] rfl rfl (by decide) (by decide)
    (by decide)
  exact ⟨hit.1, hit.2.1, hit.2.2.2.2⟩

/-- **C7** (event attributes): in every `Harvest` run the emitted events
carry 1-based consecutive line numbers (starting at 1 for the instance) and
the harvester's source path and configured tag fields; and in the fresh
static run the full event list is exactly `expectedEvents`: per line the
source path, the offset of the line's first byte (the offset before it was
advanced), the next line number, the terminator-stripped text, the tag
fields, and the size snapshot of the read that produced it. -/
theorem c7_event_attributes :
    (∀ (t : Bool) (fuel : Nat) (h : Harvester) (lrt c : Nat) (obsList : List Obs)
      (out : HvOut),
      harvestGo t fuel h [] 0 lrt c obsList = some out →
      out.events.map FileEvent.Line = List.range' 1 out.events.length ∧
      ∀ e ∈ out.events, e.Source = h.Path ∧ e.Fields = h.fileConfig.Fields) ∧
    (∀ (ls : List (List Nat)) (p : List Nat) (h : Harvester) (c : Nat) (os : List Obs),
      h.IsTracked = false → h.size = 0 →
      (∀ l ∈ ls, LF ∉ l) → LF ∉ p → h.fileConfig.deadtime ≤ 10 →
      h.Harvest false (ls.length + 1) c
          (List.replicate ls.length ⟨joinLines ls ++ p, none⟩ ++
            List.replicate 11 ⟨joinLines ls ++ p, none⟩ ++ os) =
        some ⟨expectedEvents h.Path h.fileConfig.Fields (joinLines ls ++ p).length 0 0 ls,
              [termLen ls],
              { h with
                  IsTracked := true, size := (joinLines ls ++ p).length
                  info := some ⟨(joinLines ls ++ p).length⟩, Offset := termLen ls },
              p, c + 11, os, ExitKind.dead⟩ ∧
      (expectedEvents h.Path h.fileConfig.Fields (joinLines ls ++ p).length 0 0 ls).map
        FileEvent.Line = List.range' 1 ls.length) := by
  constructor
  · intro t fuel h lrt c obsList out hgo
    exact harvest_lines t fuel h [] 0 lrt c obsList out hgo
  · intro ls p h c os hT hsz hls hp hdt
    refine ⟨?_, expectedEvents_map_line _ _ _ ls 0 0⟩
    unfold Harvester.Harvest
    exact harvest_fresh_run ls p h 0 c c os hT hsz hls hp hdt (le_refl c)

/-- Witness for C7: the general attribute facts at the concrete two-line run,
and the concrete instance of the fresh-run characterization. -/
theorem c7_witness :
    ((expectedEvents "log" [("t", "x")] 6 0 0 [[97], [98, 99]]).map FileEvent.Line =
      List.range' 1 (expectedEvents "log" [("t", "x")] 6 0 0 [[97], [98, 99]]).length ∧
     ∀ e ∈ expectedEvents "log" [("t", "x")] 6 0 0 [[97], [98, 99]],
       e.Source = "log" ∧ e.Fields = [("t", "x")]) ∧
    Harvester.Harvest ⟨false, "log", ⟨5, [("t", "x")]⟩, 7, 0, none⟩ false 3 0
        (List.replicate 2 ⟨[97, 10, 98, 99, 10, 100], none⟩ ++
          List.replicate 11 ⟨[97, 10, 98, 99, 10, 100], none⟩ ++ []) =
      some ⟨expectedEvents "log" [("t", "x")] 6 0 0 [[97], [98, 99]],
            [termLen [[97], [98, 99]]],
            ⟨true, "log", ⟨5, [("t", "x")]⟩, termLen [[97], [98, 99]], 6, some ⟨6⟩⟩,
            [100], 11, [], ExitKind.dead⟩ := by
  have hrun : Harvester.Harvest ⟨false, "log", ⟨5, [("t", "x")]⟩, 7, 0, none⟩ false 3 0
      (List.replicate 2 ⟨[97, 10, 98, 99, 10, 100], none⟩ ++
        List.replicate 11 ⟨[97, 10, 98, 99, 10, 100], none⟩ ++ []) =
      some ⟨expectedEvents "log" [("t", "x")] 6 0 0 [[97], [98, 99]],
            [termLen [[97], [98, 99]]],
            ⟨true, "log", ⟨5, [("t", "x")]⟩, termLen [[97], [98, 99]], 6, some ⟨6⟩⟩,
            [100], 11, [], ExitKind.dead⟩ :=
    (c7_event_attributes.2 [[97], [98, 99]] [100]
      ⟨false, "log", ⟨5, [("t", "x")]⟩, 7, 0, none⟩ 0 [] rfl rfl (by decide) (by decide)
      (by decide)).1
  have hrun2 : harvestGo false 3 ⟨false, "log", ⟨5, [("t", "x")]⟩, 7, 0, none⟩ [] 0 0 0
      (List.replicate 2 ⟨[97, 10, 98, 99, 10, 100], none⟩ ++
        List.replicate 11 ⟨[97, 10, 98, 99, 10, 100], none⟩ ++ []) =
      some ⟨expectedEvents "log" [("t", "x")] 6 0 0 [[97], [98, 99]],
            [termLen [[97], [98, 99]]],
            ⟨true, "log", ⟨5, [("t", "x")]⟩, termLen [[97], [98, 99]], 6, some ⟨6⟩⟩,
            [100], 11, [], ExitKind.dead⟩ := hrun
  have hgen := c7_event_attributes.1 false 3 ⟨false, "log", ⟨5, [("t", "x")]⟩, 7, 0, none⟩
    0 0 (List.replicate 2 ⟨[97, 10, 98, 99, 10, 100], none⟩ ++
      List.replicate 11 ⟨[97, 10, 98, 99, 10, 100], none⟩ ++ []) _ hrun2
  exact ⟨hgen, hrun⟩

/-- **C2** (completion push): every terminating `Harvest` run — Dead or
Aborted alike — records exactly one push on the completion channel, and the
value pushed is the final tracked offset. -/
theorem c2_completion_push (t : Bool) (fuel : Nat) (h : Harvester) (b : List Nat)
    (line lrt c : Nat) (obsList : List Obs) (out : HvOut)
    (hgo : harvestGo t fuel h b line lrt c obsList = some out) :
    out.pushes = [out.h.Offset] ∧ out.pushes.length = 1 := by
  have hp := harvestGo_pushes t fuel h b line lrt c obsList out hgo
  exact ⟨hp, by rw [hp]; rfl⟩

/-- Witness for C2: a concrete Dead run and a concrete Aborted run, each
pushing exactly its final offset once. -/
theorem c2_witness :
    (harvestGo false 1 ⟨false, "p", ⟨0, []⟩, 0, 0, none⟩ [] 0 0 0
        (List.replicate 11 ⟨[], none⟩) =
      some ⟨[], [0], ⟨true, "p", ⟨0, []⟩, 0, 0, some ⟨0⟩⟩, [], 11, [], ExitKind.dead⟩) ∧
    ([0] = [(⟨true, "p", ⟨0, []⟩, 0, 0, some ⟨0⟩⟩ : Harvester).Offset] ∧
      ([0] : List Nat).length = 1) ∧
    (harvestGo false 1 ⟨false, "p", ⟨0, []⟩, 0, 0, none⟩ [] 0 0 0 [⟨[], some "x"⟩] =
      some ⟨[], [0], ⟨true, "p", ⟨0, []⟩, 0, 0, some ⟨0⟩⟩, [], 0, [],
        ExitKind.aborted (RErr.other "x")⟩) ∧
    ([0] = [(⟨true, "p", ⟨0, []⟩, 0, 0, some ⟨0⟩⟩ : Harvester).Offset] ∧
      ([0] : List Nat).length = 1) := by
  have h1 : harvestGo false 1 ⟨false, "p", ⟨0, []⟩, 0, 0, none⟩ [] 0 0 0
      (List.replicate 11 ⟨[], none⟩) =
      some ⟨[], [0], ⟨true, "p", ⟨0, []⟩, 0, 0, some ⟨0⟩⟩, [], 11, [], ExitKind.dead⟩ := by
    decide
  have h2 : harvestGo false 1 ⟨false, "p", ⟨0, []⟩, 0, 0, none⟩ [] 0 0 0 [⟨[], some "x"⟩] =
      some ⟨[], [0], ⟨true, "p", ⟨0, []⟩, 0, 0, some ⟨0⟩⟩, [], 0, [],
        ExitKind.aborted (RErr.other "x")⟩ := by
    decide
  exact ⟨h1, c2_completion_push false 1 _ [] 0 0 0 _ _ h1, h2,
    c2_completion_push false 1 _ [] 0 0 0 _ _ h2⟩

/-- **C9** (timing): with no new data past the buffered bytes, a `readline`
call sleeps one second per retry and surfaces an end-of-file outcome (not an
error) once the wait measured from its start exceeds the 10-second budget —
it consumes exactly 11 observations and 11 seconds; `Harvest` then
terminates (Dead) exactly when the elapsed time since the last successful
read exceeds `config.deadtime`, and otherwise continues the loop. -/
theorem c9_eof_timeout_deadtime (t : Bool) (h : Harvester) (buffer f p : List Nat)
    (line lrt c fuel : Nat) (os : List Obs)
    (hT : h.IsTracked = true) (hsz : h.size ≤ f.length)
    (hdrop : f.drop (h.Offset + buffer.length) = p) (hp : LF ∉ p) :
    (readlineGo t 10 h buffer true 1 c c (List.replicate 11 ⟨f, none⟩ ++ os) =
      some ⟨{ h with size := f.length, info := some ⟨f.length⟩ }, buffer ++ p, c + 11, os,
        none, 0, some RErr.eof⟩) ∧
    (h.fileConfig.deadtime < (c + 11) - lrt →
      harvestGo t (fuel + 1) h buffer line lrt c (List.replicate 11 ⟨f, none⟩ ++ os) =
        some ⟨[], [h.Offset], { h with size := f.length, info := some ⟨f.length⟩ },
          buffer ++ p, c + 11, os, ExitKind.dead⟩) ∧
    ((c + 11) - lrt ≤ h.fileConfig.deadtime →
      harvestGo t (fuel + 1) h buffer line lrt c (List.replicate 11 ⟨f, none⟩ ++ os) =
        harvestGo t fuel { h with size := f.length, info := some ⟨f.length⟩ }
          (buffer ++ p) line lrt (c + 11) os) := by
  have hrlgo := readline_eof t h buffer f p c os hT hsz hdrop hp
  have hrl : h.readline t buffer 10 c (List.replicate 11 ⟨f, none⟩ ++ os) =
      some ⟨{ h with size := f.length, info := some ⟨f.length⟩ }, buffer ++ p, c + 11, os,
        none, 0, some RErr.eof⟩ := by
    simpa [Harvester.readline] using hrlgo
  refine ⟨hrlgo, fun hdead => ?_, fun hlive => ?_⟩
  · rw [harvestGo_step_dead t fuel h buffer line lrt c hrl (by simpa using hdead)]
  · rw [harvestGo_step_eof_cont t fuel h buffer line lrt c hrl (by simpa using hlive)]

/-- Witness for C9: a harvester with dead time 0 dies after the 11-second
end-of-file wait; one with dead time 20 loops again. -/
theorem c9_witness :
    (readlineGo false 10 ⟨true, "p", ⟨0, []⟩, 0, 0, none⟩ [] true 1 0 0
        (List.replicate 11 ⟨[97], none⟩ ++ []) =
      some ⟨⟨true, "p", ⟨0, []⟩, 0, 1, some ⟨1⟩⟩, [] ++ [97], 0 + 11, [],
        none, 0, some RErr.eof⟩) ∧
    (harvestGo false 1 ⟨true, "p", ⟨0, []⟩, 0, 0, none⟩ [] 0 0 0
        (List.replicate 11 ⟨[97], none⟩ ++ []) =
      some ⟨[], [0], ⟨true, "p", ⟨0, []⟩, 0, 1, some ⟨1⟩⟩, [] ++ [97], 0 + 11, [],
        ExitKind.dead⟩) ∧
    (harvestGo false 1 ⟨true, "q", ⟨20, []⟩, 0, 0, none⟩ [] 0 0 0
        (List.replicate 11 ⟨[97], none⟩ ++ []) =
      harvestGo false 0 ⟨true, "q", ⟨20, []⟩, 0, 1, some ⟨1⟩⟩ ([] ++ [97]) 0 0 (0 + 11)
        []) := by
  have hA := c9_eof_timeout_deadtime false ⟨true, "p", ⟨0, []⟩, 0, 0, none⟩ [] [97] [97]
    0 0 0 0 [] rfl (by decide) (by decide) (by decide)
  have hB := c9_eof_timeout_deadtime false ⟨true, "q", ⟨20, []⟩, 0, 0, none⟩ [] [97] [97]
    0 0 0 0 [] rfl (by decide) (by decide) (by decide)
  exact ⟨hA.1, hA.2.1 (by decide), hB.2.2 (by decide)⟩

/-- Error returns of `readline` carry no text and a zero byte count. -/
lemma readlineStep_done_err (t : Bool) (T : Nat) (h : Harvester) (b : List Nat) (ip : Bool)
    (nl st c : Nat) (o : Obs) (h1 : Harvester) (b1 : List Nat) (c1 : Nat)
    (tx : Option (List Nat)) (n : Nat) (err : Option RErr) (e : RErr)
    (hstep : readlineStep t T h b ip nl st c o = StepRes.done h1 b1 c1 tx n err)
    (herr : err = some e) :
    tx = none ∧ n = 0 := by
  unfold readlineStep at hstep
  dsimp only at hstep
  repeat' split at hstep
  all_goals first
    | (cases hstep; exact ⟨rfl, rfl⟩)
    | (cases hstep; exact absurd herr (by simp))
    | cases hstep

lemma readlineGo_err_shape (t : Bool) (T : Nat) :
    ∀ (obsList : List Obs) (h : Harvester) (b : List Nat) (ip : Bool) (nl st c : Nat)
      (r : RlOut) (e : RErr),
      readlineGo t T h b ip nl st c obsList = some r → r.err = some e →
      r.text = none ∧ r.bytesread = 0 := by
  intro obsList
  induction obsList with
  | nil =>
    intro h b ip nl st c r e hgo herr
    exact absurd hgo (by simp [readlineGo])
  | cons o rest ih =>
    intro h b ip nl st c r e hgo herr
    rw [readlineGo_cons] at hgo
    split at hgo
    case h_1 h1 b1 c1 tx n err heq =>
      cases hgo
      simp only at herr
      exact readlineStep_done_err t T h b ip nl st c o h1 b1 c1 tx n err e heq herr
    case h_2 h1 b1 ip1 nl1 c1 heq =>
      exact ih h1 b1 ip1 nl1 st c1 r e hgo herr

/-- **C10** (error atomicity): every error return of `readline` — EOF after
the wait budget, truncation, or any other read error — carries a nil text
and a byte count of 0, so `Harvest` never advances the offset on a failed
read; on the Aborted path the offset pushed equals the offset just past the
last successfully emitted line. -/
theorem c10_error_atomicity :
    (∀ (t : Bool) (T : Nat) (h : Harvester) (b : List Nat) (c : Nat)
      (obsList : List Obs) (r : RlOut) (e : RErr),
      h.readline t b T c obsList = some r → r.err = some e →
      r.text = none ∧ r.bytesread = 0) ∧
    (∀ (ls : List (List Nat)) (p : List Nat) (h : Harvester) (msg : String)
      (c : Nat) (os : List Obs),
      h.IsTracked = false → h.size = 0 → (∀ l ∈ ls, LF ∉ l) →
      h.Harvest false (ls.length + 1) c
          (List.replicate ls.length ⟨joinLines ls ++ p, none⟩ ++
            ⟨joinLines ls ++ p, some msg⟩ :: os) =
        some ⟨expectedEvents h.Path h.fileConfig.Fields (joinLines ls ++ p).length 0 0 ls,
              [termLen ls],
              { h with
                  IsTracked := true, size := (joinLines ls ++ p).length
                  info := some ⟨(joinLines ls ++ p).length⟩, Offset := termLen ls },
              [], c, os, ExitKind.aborted (RErr.other msg)⟩) := by
  constructor
  · intro t T h b c obsList r e hrl herr
    exact readlineGo_err_shape t T obsList h b true 1 c c r e
      (by simpa [Harvester.readline] using hrl) herr
  · intro ls p h msg c os hT hsz hls
    unfold Harvester.Harvest
    exact harvest_fresh_abort ls p h msg 0 c c os hT hsz hls

/-- Witness for C10: the concrete truncation return carries no text and no
bytes, and a concrete aborted run pushes exactly the offset after its one
emitted line. -/
theorem c10_witness :
    (Harvester.readline ⟨true, "p", ⟨0, []⟩, 0, 3, none⟩ false [97] 10 0
        [⟨[97, 98], none⟩] =
      some ⟨⟨true, "p", ⟨0, []⟩, 0, 2, some ⟨2⟩⟩, [97], 0, [], none, 0,
        some RErr.truncated⟩ ∧ (none : Option (List Nat)) = none ∧ (0 : Nat) = 0) ∧
    Harvester.Harvest ⟨false, "log", ⟨5, []⟩, 0, 0, none⟩ false 2 0
        (List.replicate 1 ⟨[97, 10, 98], none⟩ ++ [⟨[97, 10, 98], some "boom"⟩]) =
      some ⟨expectedEvents "log" [] 3 0 0 [[97]], [termLen [[97]]],
            ⟨true, "log", ⟨5, []⟩, termLen [[97]], 3, some ⟨3⟩⟩,
            [], 0, [], ExitKind.aborted (RErr.other "boom")⟩ := by
  have hrl : Harvester.readline ⟨true, "p", ⟨0, []⟩, 0, 3, none⟩ false [97] 10 0
      [⟨[97, 98], none⟩] =
      some ⟨⟨true, "p", ⟨0, []⟩, 0, 2, some ⟨2⟩⟩, [97], 0, [], none, 0,
        some RErr.truncated⟩ := by decide
  have hshape := c10_error_atomicity.1 false 10 ⟨true, "p", ⟨0, []⟩, 0, 3, none⟩ [97] 0
    [⟨[97, 98], none⟩] _ RErr.truncated hrl rfl
  exact ⟨⟨hrl, hshape.1, hshape.2⟩,
    c10_error_atomicity.2 [[97]] [98] ⟨false, "log", ⟨5, []⟩, 0, 0, none⟩ "boom" 0 []
      rfl rfl (by decide)⟩

/-- **C3** (truncation handling, code bug): the code resets the offset to 0
on truncation but does **not** discard the fragment buffer (the
`continue` in `Harvest` keeps the buffer that `readline` left behind).  At
this concrete run — fragment "abc" buffered, file truncated to "x\n", file
regrown to "x\nyz\n" — the harvester emits one event whose text is "abcz":
the stale pre-truncation bytes 97,98,99 are prepended, and the first three
bytes of the new file (120,10,121, i.e. "x\ny") are skipped and never
emitted.  A run matching the claim would instead emit "x" (byte 120) as the
first post-truncation line. -/
theorem c3_truncation_buffer_bug :
    Harvester.Harvest ⟨false, "p", ⟨0, []⟩, 0, 0, none⟩ false 3 0
        ([⟨[97, 98, 99], none⟩, ⟨[120, 10], none⟩] ++
          List.replicate 12 ⟨[120, 10, 121, 122, 10], none⟩) =
      some ⟨[⟨"p", 0, 1, some [97, 98, 99, 122], [], some ⟨5⟩⟩], [5],
            ⟨true, "p", ⟨0, []⟩, 5, 5, some ⟨5⟩⟩, [], 12, [], ExitKind.dead⟩ ∧
    (some [97, 98, 99, 122] ≠ some ([120] : List Nat)) := by
  exact ⟨by decide, by decide⟩

/-- **C4, as stated, is false** (corrected): when a buffered fragment ends in
a carriage return and the line feed arrives alone in a later read segment,
the carriage return is *not* stripped — the CR check only looks inside the
current segment.  Concretely: the file grows from "ab\r" to "ab\r\n"; the
assembled line's terminator in the file is CRLF, yet the returned text is
"ab\r", not "ab". -/
theorem c4_counterexample :
    Harvester.readline ⟨true, "p", ⟨0, []⟩, 0, 0, none⟩ false [] 10 0
        [⟨[97, 98, 13], none⟩, ⟨[97, 98, 13, 10], none⟩] =
      some ⟨⟨true, "p", ⟨0, []⟩, 0, 4, some ⟨4⟩⟩, [], 1, [], some [97, 98, 13], 4, none⟩ ∧
    [97, 98, 13] ≠ ([97, 98] : List Nat) := by
  exact ⟨by decide, by decide⟩

/-- **C4 amended** (terminator stripping): a line is complete exactly when
the last byte read is a line feed; when the line (with its carriage return,
if any) arrives in one read segment — always the case for a line of a static
file — a CR immediately before the LF is stripped together with it (2-byte
terminator), otherwise only the LF is stripped; the returned byte count
includes the terminator bytes; hence a CRLF file and an LF file with the
same logical content yield identical texts, with byte counts differing by
one per line.  Only when the CR was buffered from an earlier chunk and the
LF arrives alone is the CR left in the text. -/
theorem c4_terminator_stripping :
    (∀ (t : Bool) (T : Nat) (h : Harvester) (f l r : List Nat) (st c : Nat)
      (os : List Obs),
      h.IsTracked = true → h.size ≤ f.length → LF ∉ l → f.drop h.Offset = l ++ LF :: r →
      readlineGo t T h [] true 1 st c (⟨f, none⟩ :: os) =
        some ⟨{ h with size := f.length, info := some ⟨f.length⟩ }, [], c, os,
          some (stripTerm l), l.length + 1, none⟩) ∧
    (∀ (t : Bool) (T : Nat) (h₁ h₂ : Harvester) (f₁ f₂ l r₁ r₂ : List Nat) (st c : Nat)
      (os₁ os₂ : List Obs),
      h₁.IsTracked = true → h₁.size ≤ f₁.length →
      h₂.IsTracked = true → h₂.size ≤ f₂.length →
      LF ∉ l → l[l.length - 1]? ≠ some CR →
      f₁.drop h₁.Offset = (l ++ [CR]) ++ LF :: r₁ →
      f₂.drop h₂.Offset = l ++ LF :: r₂ →
      readlineGo t T h₁ [] true 1 st c (⟨f₁, none⟩ :: os₁) =
        some ⟨{ h₁ with size := f₁.length, info := some ⟨f₁.length⟩ }, [], c, os₁,
          some l, l.length + 2, none⟩ ∧
      readlineGo t T h₂ [] true 1 st c (⟨f₂, none⟩ :: os₂) =
        some ⟨{ h₂ with size := f₂.length, info := some ⟨f₂.length⟩ }, [], c, os₂,
          some l, l.length + 1, none⟩) := by
  constructor
  · intro t T h f l r st c os hT hsz hl hdrop
    exact readline_emits t T h f l r st c os hT hsz hl hdrop
  · intro t T h₁ h₂ f₁ f₂ l r₁ r₂ st c os₁ os₂ hT₁ hsz₁ hT₂ hsz₂ hl hcr hdrop₁ hdrop₂
    obtain ⟨hstrip₁, hstrip₂⟩ := stripTerm_concat_CR l hcr
    constructor
    · have hl' : LF ∉ l ++ [CR] := by
        intro hmem
        rcases List.mem_append.mp hmem with hmem1 | hmem2
        · exact hl hmem1
        · simp [LF, CR] at hmem2
      have := readline_emits t T h₁ f₁ (l ++ [CR]) r₁ st c os₁ hT₁ hsz₁ hl' hdrop₁
      rw [hstrip₁] at this
      simpa using this
    · have := readline_emits t T h₂ f₂ l r₂ st c os₂ hT₂ hsz₂ hl hdrop₂
      rw [hstrip₂] at this
      exact this

/-- Witness for the amended C4: the CRLF line "a\r\n" and the LF line "a\n"
both yield the text "a"; byte counts 3 and 2. -/
theorem c4_witness :
    readlineGo false 10 ⟨true, "p", ⟨0, []⟩, 0, 0, none⟩ [] true 1 0 0
        [⟨[97, 13, 10, 98], none⟩] =
      some ⟨⟨true, "p", ⟨0, []⟩, 0, 4, some ⟨4⟩⟩, [], 0, [], some [97], 3, none⟩ ∧
    readlineGo false 10 ⟨true, "p", ⟨0, []⟩, 0, 0, none⟩ [] true 1 0 0
        [⟨[97, 10, 98], none⟩] =
      some ⟨⟨true, "p", ⟨0, []⟩, 0, 3, some ⟨3⟩⟩, [], 0, [], some [97], 2, none⟩ := by
  have hit := c4_terminator_stripping.2 false 10 ⟨true, "p", ⟨0, []⟩, 0, 0, none⟩
    ⟨true, "p", ⟨0, []⟩, 0, 0, none⟩ [97, 13, 10, 98] [97, 10, 98] [97] [98] [98] 0 0 [] []
    rfl (by decide) rfl (by decide) (by decide) (by decide) (by decide) (by decide)
  exact hit

/-- The initial-size bookkeeping of `Harvester.openH` never touches `size`. -/
lemma openH_size (h : Harvester) (t : Bool) (f : List Nat) :
    (h.openH t f).size = h.size := by
  unfold Harvester.openH
  split
  · rfl
  · split <;> rfl

/-- **C6 counterexample**: a chunk read that signals truncation *does*
update `lastObservedSize` — the deferred store runs on every return path.
Here a harvester with recorded size 3 reads a 2-byte file: truncation is
signalled, yet the stored size becomes 2 (≠ 3). -/
theorem c6_counterexample :
    ((⟨true, "p", ⟨0, []⟩, 0, 3, none⟩ : Harvester).read false ⟨[97, 98], none⟩ 0).2.2 =
        some RErr.truncated ∧
    ((⟨true, "p", ⟨0, []⟩, 0, 3, none⟩ : Harvester).read false ⟨[97, 98], none⟩ 0).1.size
        = 2 ∧
    (2 : Nat) ≠ 3 := by
  exact ⟨by decide, by decide, by decide⟩

/-- **C6 amended**: each chunk read compares the currently observed file
size to `lastObservedSize` and, if smaller, signals truncation without
reading any bytes; `lastObservedSize` is updated to the currently observed
size on *every* chunk read, including one that signals truncation (the
deferred update runs on all return paths). -/
theorem c6_truncation_check (h : Harvester) (t : Bool) (obs : Obs) (k : Nat) :
    (h.read t obs k).1.size = obs.content.length ∧
    (obs.content.length < h.size →
      (h.read t obs k).2.1 = [] ∧ (h.read t obs k).2.2 = some RErr.truncated) := by
  constructor
  · rw [read_fst]
  · intro hlt
    have hlt' : obs.content.length < (h.openH t obs.content).size := by
      rw [openH_size]
      exact hlt
    unfold Harvester.read
    dsimp only
    rw [if_pos hlt']
    exact ⟨rfl, rfl⟩

/-- Witness for the amended C6 at the concrete shrunk file. -/
theorem c6_witness :
    ((⟨true, "p", ⟨0, []⟩, 0, 3, none⟩ : Harvester).read false ⟨[97, 98], none⟩ 0).1.size
        = 2 ∧
    ((⟨true, "p", ⟨0, []⟩, 0, 3, none⟩ : Harvester).read false ⟨[97, 98], none⟩ 0).2.1
        = [] ∧
    ((⟨true, "p", ⟨0, []⟩, 0, 3, none⟩ : Harvester).read false ⟨[97, 98], none⟩ 0).2.2
        = some RErr.truncated := by
  have hit := c6_truncation_check ⟨true, "p", ⟨0, []⟩, 0, 3, none⟩ false ⟨[97, 98], none⟩ 0
  have hpart := hit.2 (by decide)
  exact ⟨hit.1, hpart.1, hpart.2⟩

/-- **C8** (initial position, decided once): a tracked read keeps the tracked
offset and reads from `Offset + bufLen`; the first read of an untracked
harvester in tail mode records end-of-file as the offset, flips `IsTracked`,
and reads from there; in read-from-start mode it records 0, flips
`IsTracked`, and reads from 0; in all cases the harvester is tracked
afterwards, so every later open seeks to the tracked position. -/
theorem c8_initial_position (h : Harvester) (t : Bool) (obs : Obs) (k : Nat)
    (hre : obs.readErr = none) (hsz : h.size ≤ obs.content.length) :
    (h.IsTracked = true →
      (h.read t obs k).1.IsTracked = true ∧ (h.read t obs k).1.Offset = h.Offset ∧
      (h.read t obs k).2.1 = (readBytesLF (obs.content.drop (h.Offset + k))).1) ∧
    (h.IsTracked = false → t = true →
      (h.read t obs k).1.IsTracked = true ∧
      (h.read t obs k).1.Offset = obs.content.length ∧
      (h.read t obs k).2.1 =
        (readBytesLF (obs.content.drop (obs.content.length + k))).1) ∧
    (h.IsTracked = false → t = false →
      (h.read t obs k).1.IsTracked = true ∧ (h.read t obs k).1.Offset = 0 ∧
      (h.read t obs k).2.1 = (readBytesLF (obs.content.drop (0 + k))).1) := by
  have hns : ¬ obs.content.length < h.size := Nat.not_lt.mpr hsz
  refine ⟨fun hT => ?_, fun hT ht => ?_, fun hT ht => ?_⟩
  · unfold Harvester.read Harvester.openH
    simp [hT, hre, hns]
  · subst ht
    unfold Harvester.read Harvester.openH
    simp [hT, hre, hns]
  · subst ht
    unfold Harvester.read Harvester.openH
    simp [hT, hre, hns]

/-- Witness for C8: all three position policies at concrete inputs. -/
theorem c8_witness :
    ((⟨true, "p", ⟨0, []⟩, 2, 0, none⟩ : Harvester).read false ⟨[97, 98, 99, 10], none⟩
        0).1.Offset = 2 ∧
    ((⟨false, "p", ⟨0, []⟩, 2, 0, none⟩ : Harvester).read true ⟨[97, 98, 99, 10], none⟩
        0).1.Offset = 4 ∧
    ((⟨false, "p", ⟨0, []⟩, 2, 0, none⟩ : Harvester).read true ⟨[97, 98, 99, 10], none⟩
        0).1.IsTracked = true ∧
    ((⟨false, "p", ⟨0, []⟩, 2, 0, none⟩ : Harvester).read false ⟨[97, 98, 99, 10], none⟩
        0).1.Offset = 0 ∧
    ((⟨false, "p", ⟨0, []⟩, 2, 0, none⟩ : Harvester).read false ⟨[97, 98, 99, 10], none⟩
        0).2.1 = (readBytesLF ([97, 98, 99, 10].drop (0 + 0))).1 := by
  have hA := (c8_initial_position ⟨true, "p", ⟨0, []⟩, 2, 0, none⟩ false
    ⟨[97, 98, 99, 10], none⟩ 0 rfl (by decide)).1 rfl
  have hB := (c8_initial_position ⟨false, "p", ⟨0, []⟩, 2, 0, none⟩ true
    ⟨[97, 98, 99, 10], none⟩ 0 rfl (by decide)).2.1 rfl rfl
  have hC := (c8_initial_position ⟨false, "p", ⟨0, []⟩, 2, 0, none⟩ false
    ⟨[97, 98, 99, 10], none⟩ 0 rfl (by decide)).2.2 rfl rfl
  exact ⟨hA.2.1, hB.2.1, hB.1, hC.2.1, hC.2.2⟩

end LogstashForwarder
